import Mathlib

/-!
Shallow embedding of kikuchipy's src/kikuchipy/utils/expt_utils.py.

The module holds three numpy-based functions on 2-D patterns:
  - rescale_pattern_intensity (intensity rescaling),
  - correct_background (static/dynamic background correction),
  - remove_dead (dead-pixel removal).

Modelling choices:
  - a 2-D numeric array is a list of rows of rationals (`Pat`); exact
    rational arithmetic stands in for Python/numpy floating point;
  - numpy dtypes are an inductive `Dtype`; casting a float value to an
    integer dtype truncates toward zero and wraps modulo 2^width, as the
    C-level conversion used by numpy does on the reference platform;
  - a division whose divisor is zero, and arithmetic on Python `None`,
    are modelled as errors of an explicit `Except`;
  - `remove_dead` works on arrays whose cells are `Option ℚ`, where
    `none` is numpy's nan sentinel;
  - array allocation (np.copy) is modelled, where a claim needs it, by a
    heap of arrays addressed by list position.
-/

/-- A 2-D numeric array: a list of rows of exact rationals. -/
abbrev Pat := List (List ℚ)

instance {ε α : Type _} [DecidableEq ε] [DecidableEq α] : DecidableEq (Except ε α) := fun a b =>
  match a, b with
  | .ok x, .ok y =>
    match decEq x y with
    | isTrue h => isTrue (congrArg Except.ok h)
    | isFalse h => isFalse fun hc => h (Except.ok.inj hc)
  | .error x, .error y =>
    match decEq x y with
    | isTrue h => isTrue (congrArg Except.error h)
    | isFalse h => isFalse fun hc => h (Except.error.inj hc)
  | .ok _, .error _ => isFalse fun hc => Except.noConfusion hc
  | .error _, .ok _ => isFalse fun hc => Except.noConfusion hc

/-- Truncation toward zero, the conversion Python's int() and numpy's
float-to-integer C cast apply to a finite value. -/
def ratTrunc (q : ℚ) : ℤ := if 0 ≤ q then ⌊q⌋ else ⌈q⌉

/-- The numpy scalar dtypes relevant to the module. -/
inductive Dtype
  | uint8 | uint16 | uint32 | uint64
  | int8 | int16 | int32 | int64
  | float32 | float64
deriving DecidableEq

/-- np.issubdtype(dty, np.unsignedinteger). -/
def Dtype.isUnsignedInteger : Dtype → Bool
  | .uint8 | .uint16 | .uint32 | .uint64 => true
  | _ => false

/-- Bit width of the dtype. -/
def Dtype.bitWidth : Dtype → ℕ
  | .uint8 => 8 | .uint16 => 16 | .uint32 => 32 | .uint64 => 64
  | .int8 => 8 | .int16 => 16 | .int32 => 32 | .int64 => 64
  | .float32 => 32 | .float64 => 64

/-- np.iinfo(dty).max for the integer dtypes; np.iinfo is undefined for
the float dtypes (a call on them raises), and in this module it is only
reached after the unsigned-integer check, so those cases are unreachable
and given a dummy value. -/
def Dtype.iinfoMax : Dtype → ℕ
  | .uint8 => 2 ^ 8 - 1 | .uint16 => 2 ^ 16 - 1
  | .uint32 => 2 ^ 32 - 1 | .uint64 => 2 ^ 64 - 1
  | .int8 => 2 ^ 7 - 1 | .int16 => 2 ^ 15 - 1
  | .int32 => 2 ^ 31 - 1 | .int64 => 2 ^ 63 - 1
  | .float32 => 0 | .float64 => 0

/-- Cast of a (finite) float value to an unsigned integer dtype:
truncate toward zero, then wrap modulo 2^width. -/
def castToUnsigned (dty : Dtype) (q : ℚ) : ℤ :=
  ratTrunc q % (2 : ℤ) ^ dty.bitWidth

/-- Wrap an integer into the two's-complement range of a signed dtype of
width w, as numpy's astype does. -/
def wrapSigned (w : ℕ) (t : ℤ) : ℤ :=
  (t + 2 ^ (w - 1)) % 2 ^ w - 2 ^ (w - 1)

/-- pattern.astype(signed dtype of width w), elementwise on a 2-D array:
truncate toward zero and wrap into the signed range. -/
def astypeSigned (w : ℕ) (p : Pat) : Pat :=
  p.map (List.map fun x => ((wrapSigned w (ratTrunc x) : ℤ) : ℚ))

/-- Minimum of a list of rationals (numpy .min() on the flattened data);
defined as 0 on the empty list, which numpy instead rejects. -/
def listMin : List ℚ → ℚ
  | [] => 0
  | [x] => x
  | x :: y :: xs => min x (listMin (y :: xs))

/-- Maximum of a list of rationals (numpy .max() on the flattened data). -/
def listMax : List ℚ → ℚ
  | [] => 0
  | [x] => x
  | x :: y :: xs => max x (listMax (y :: xs))

/-- pattern.min() of a 2-D array. -/
def patMin (p : Pat) : ℚ := listMin p.flatten

/-- pattern.max() of a 2-D array. -/
def patMax (p : Pat) : ℚ := listMax p.flatten

/-- Shape of a 2-D array: the list of row lengths. -/
def patShape (p : Pat) : List ℕ := p.map List.length

/-- Failure modes of rescale_pattern_intensity (and of correct_background,
which only fails through it):
  - dtypeNotUnsigned: the explicit ValueError for a dtype_out that is not
    an unsigned integer type;
  - zeroDivisor: the divisor max(pattern) - imin of the automatic-mode
    scale computation is zero (numpy emits a warning and the result is
    not a finite number);
  - noneArithmetic: exactly one of imin/scale was supplied, so the other
    is Python None and the arithmetic on it raises TypeError. -/
inductive RescaleErr
  | dtypeNotUnsigned
  | zeroDivisor
  | noneArithmetic
deriving DecidableEq

/-- Shared elementwise computation of rescale_pattern_intensity once imin
and scale hold values: (pattern - imin) * scale cast to dtype_out. -/
def rescaleCore (p : Pat) (imin scale : ℚ) (dty : Dtype) : Pat :=
  p.map (List.map fun x => ((castToUnsigned dty ((x - imin) * scale) : ℤ) : ℚ))

/-- rescale_pattern_intensity(pattern, imin, scale, dtype_out) from
expt_utils.py. Validates dtype_out, derives imin and scale from the
pattern when both are omitted (local contrast stretching), shifts by imin
and scales, casting the result to dtype_out. -/
def rescale_pattern_intensity (pattern : Pat) (imin scale : Option ℚ)
    (dtype_out : Dtype := Dtype.uint8) : Except RescaleErr Pat :=
  if dtype_out.isUnsignedInteger = false then
    .error .dtypeNotUnsigned
  else
    match imin, scale with
    | none, none =>
      -- omax := iinfo(dtype_out).max; imin := pattern.min();
      -- scale := omax / (pattern.max() - imin)
      if patMax pattern - patMin pattern = 0 then .error .zeroDivisor
      else .ok (rescaleCore pattern (patMin pattern)
        ((dtype_out.iinfoMax : ℚ) / (patMax pattern - patMin pattern)) dtype_out)
    | some i, some s => .ok (rescaleCore pattern i s dtype_out)
    | _, _ => .error .noneArithmetic

/-- The automatic-mode output array as the spec words it: omax is the
maximum representable value of dtype_out, imin the pattern minimum, scale
the division omax / (max(pattern) - imin), and each cell is
(x - imin) * scale truncated toward zero (not rounded) — with no
wrap-around, unlike the dtype cast of the implementation. -/
def rescaleAutoSpec (pattern : Pat) (dtype_out : Dtype) : Pat :=
  pattern.map (List.map fun x =>
    ((ratTrunc ((x - patMin pattern) *
      ((dtype_out.iinfoMax : ℚ) / (patMax pattern - patMin pattern))) : ℤ) : ℚ))

/-- Elementwise 2-D combination of two arrays (numpy broadcasting is not
needed: the module always combines same-shape arrays). -/
def zipWith2D (f : ℚ → ℚ → ℚ) (p q : Pat) : Pat :=
  List.zipWith (fun r1 r2 => List.zipWith f r1 r2) p q

/-- Subtraction of two signed-integer arrays of width w: the elementwise
difference wraps back into the two's-complement range, as numpy
fixed-width subtraction does. -/
def subWrapSigned (w : ℕ) (p q : Pat) : Pat :=
  zipWith2D (fun a b => ((wrapSigned w (ratTrunc a - ratTrunc b) : ℤ) : ℚ)) p q

/-- The cast-and-subtract of correct_background's static path:
pattern.astype(np.int8), bg.astype(np.int8), then pattern - bg in int8. -/
def staticCastSub (pattern bg : Pat) : Pat :=
  subWrapSigned 8 (astypeSigned 8 pattern) (astypeSigned 8 bg)

/-- Exact elementwise subtraction pattern - bg, the ideal (no-overflow)
arithmetic the spec describes for the static path. -/
def exactSub (pattern bg : Pat) : Pat :=
  zipWith2D (fun a b => a - b) pattern bg

/-- correct_background(pattern, static, dynamic, bg, sigma, imin, scale)
from expt_utils.py. The scipy gaussian_filter collaborator (called with
truncate=2.0) is passed in as the function argument gaussian_blur; the
claims under verification never evaluate it. -/
def correct_background (gaussian_blur : Pat → ℚ → Pat) (pattern : Pat)
    (static dynamic : Bool) (bg : Pat) (sigma : ℚ)
    (imin scale : Option ℚ) : Except RescaleErr Pat :=
  let step1 : Except RescaleErr Pat :=
    if static then
      rescale_pattern_intensity (staticCastSub pattern bg) imin scale Dtype.uint8
    else .ok pattern
  match step1 with
  | .error e => .error e
  | .ok p2 =>
    if dynamic then
      let blurred := gaussian_blur p2 sigma
      rescale_pattern_intensity
        (subWrapSigned 16 (astypeSigned 16 p2) (astypeSigned 16 blurred))
        none none Dtype.uint8
    else .ok p2

/-- An all-zero background of the same shape as p (numpy zeros_like). -/
def zerosLike (p : Pat) : Pat := p.map (List.map fun _ => 0)

/-- A 2-D array whose cells may hold numpy's nan (modelled as none). -/
abbrev PatN := List (List (Option ℚ))

/-- Failure modes of remove_dead:
  - notImplemented: the NotImplementedError for an unrecognized deadvalue;
  - nanToInteger: Python int() applied to numpy nan (ValueError);
  - indexOut: writing new_pattern at an index outside the array (IndexError);
  - deleteOut: np.delete(neighbours, 4) on an array of at most 4 elements
    (IndexError). -/
inductive DeadErr
  | notImplemented
  | nanToInteger
  | indexOut
  | deleteOut
deriving DecidableEq

/-- Clamp a Python slice endpoint: negative endpoints count from the end
of the sequence, and out-of-range endpoints clip silently. -/
def pyBound (n : ℕ) (k : ℤ) : ℤ :=
  if k < 0 then max (k + n) 0 else min k n

/-- Python list/array slicing l[start:stop] with unit step. -/
def pySlice (l : List α) (start stop : ℤ) : List α :=
  (l.drop (pyBound l.length start).toNat).take
    ((pyBound l.length stop) - (pyBound l.length start)).toNat

/-- pattern[r1:r2, c1:c2].flatten(): slice the rows, slice each row, and
flatten in row-major order. -/
def sliceFlat (p : PatN) (r1 r2 c1 c2 : ℤ) : List (Option ℚ) :=
  ((pySlice p r1 r2).map fun row => pySlice row c1 c2).flatten

/-- np.delete(l, k): remove the element at index k, failing when k is out
of range. -/
def npDelete (l : List α) (k : ℕ) : Except DeadErr (List α) :=
  if k < l.length then .ok (l.eraseIdx k) else .error .deleteOut

/-- Sum of a list of possibly-nan values; nan absorbs. -/
def nanSum : List (Option ℚ) → Option ℚ
  | [] => some 0
  | x :: xs =>
    match x, nanSum xs with
    | some a, some s => some (a + s)
    | _, _ => none

/-- np.mean: nan on the empty list (numpy warns and yields nan), nan when
any entry is nan, the arithmetic mean otherwise. -/
def npMean (l : List (Option ℚ)) : Option ℚ :=
  match l, nanSum l with
  | [], _ => none
  | _, some s => some (s / (l.length : ℚ))
  | _, none => none

/-- Python int() on a float: truncation toward zero; raises on nan. -/
def intOfFloat : Option ℚ → Except DeadErr ℤ
  | none => .error .nanToInteger
  | some q => .ok (ratTrunc q)

/-- Read cell (i, j) of a 2-D array: none when out of range. -/
def getPix (p : List (List α)) (i j : ℕ) : Option α :=
  p[i]?.bind fun row => row[j]?

/-- Overwrite cell (i, j) of a 2-D array. -/
def setPix (p : List (List α)) (i j : ℕ) (v : α) : List (List α) :=
  p.set i ((p.getD i []).set j v)

/-- new_pattern[i, j] = v, failing on an out-of-range index as numpy
does. -/
def writePix (p : PatN) (i j : ℕ) (v : Option ℚ) : Except DeadErr PatN :=
  if i < p.length ∧ j < (p.getD i []).length then .ok (setPix p i j v)
  else .error .indexOut

/-- One iteration of remove_dead's average loop for dead pixel (i, j):
take the d-neighbourhood of (i, j) from the original pattern, flatten it,
delete flattened index 4 (the hardcoded centre of a 3x3 window), and
write the truncated mean into the accumulated copy. -/
def averageStep (pattern : PatN) (d : ℕ) (acc : PatN) (ij : ℕ × ℕ) :
    Except DeadErr PatN :=
  match npDelete (sliceFlat pattern ((ij.1 : ℤ) - d) ((ij.1 : ℤ) + d + 1)
    ((ij.2 : ℤ) - d) ((ij.2 : ℤ) + d + 1)) 4 with
  | .error e => .error e
  | .ok ns =>
    match intOfFloat (npMean ns) with
    | .error e => .error e
    | .ok v => writePix acc ij.1 ij.2 (some (v : ℚ))

/-- The for-loop over deadpixels: thread the accumulated copy through the
per-pixel action, stopping at the first error. -/
def foldPixels (f : PatN → ℕ × ℕ → Except DeadErr PatN) :
    PatN → List (ℕ × ℕ) → Except DeadErr PatN
  | acc, [] => .ok acc
  | acc, ij :: rest =>
    match f acc ij with
    | .error e => .error e
    | .ok acc2 => foldPixels f acc2 rest

/-- remove_dead(pattern, deadpixels, deadvalue, d) from expt_utils.py.
Copies the pattern, then per dead pixel either writes the truncated mean
of the 3x3 neighbourhood (read from the original pattern, centre
excluded) or writes nan; any other deadvalue raises
NotImplementedError. -/
def remove_dead (pattern : PatN) (deadpixels : List (ℕ × ℕ))
    (deadvalue : String := "average") (d : ℕ := 1) : Except DeadErr PatN :=
  if deadvalue = "average" then
    foldPixels (averageStep pattern d) pattern deadpixels
  else if deadvalue = "nan" then
    foldPixels (fun acc ij => writePix acc ij.1 ij.2 none) pattern deadpixels
  else .error .notImplemented

/-- A heap of allocated arrays, addressed by position; models numpy array
object identity where a claim is about aliasing. -/
abbrev Heap := List PatN

/-- remove_dead at the allocation level: read the input array from the
heap, run remove_dead (whose np.copy works on a fresh array), and place
the fresh result at a fresh address. Returns the new heap and the address
of the result. -/
def removeDeadAlloc (heap : Heap) (pref : ℕ) (deadpixels : List (ℕ × ℕ))
    (deadvalue : String) (d : ℕ) : Except DeadErr (Heap × ℕ) :=
  match remove_dead (heap.getD pref []) deadpixels deadvalue d with
  | .error e => .error e
  | .ok fresh => .ok (heap ++ [fresh], heap.length)

/-- In-place write heap[r][i, j] = v at the allocation level. -/
def heapWrite (heap : Heap) (r i j : ℕ) (v : Option ℚ) : Heap :=
  heap.set r (setPix (heap.getD r []) i j v)

/-- The 5x5 pattern of spec property 6: every pixel 10 except pixel
(2, 2), which is 200. -/
def deadPat : PatN :=
  [[some 10, some 10, some 10, some 10, some 10],
   [some 10, some 10, some 10, some 10, some 10],
   [some 10, some 10, some 200, some 10, some 10],
   [some 10, some 10, some 10, some 10, some 10],
   [some 10, some 10, some 10, some 10, some 10]]

/-- The 5x5 all-10 pattern, the expected output of spec property 6. -/
def allTenPat : PatN :=
  [[some 10, some 10, some 10, some 10, some 10],
   [some 10, some 10, some 10, some 10, some 10],
   [some 10, some 10, some 10, some 10, some 10],
   [some 10, some 10, some 10, some 10, some 10],
   [some 10, some 10, some 10, some 10, some 10]]

/-! ### Helper lemmas -/

theorem ratTrunc_intCast (t : ℤ) : ratTrunc ((t : ℤ) : ℚ) = t := by
  unfold ratTrunc
  split <;> simp

theorem wrapSigned_eight (t : ℤ) : wrapSigned 8 t = (t + 128) % 256 - 128 := by
  unfold wrapSigned
  norm_num

theorem wrapSigned_eight_mod (t : ℤ) : wrapSigned 8 t % 256 = t % 256 := by
  rw [wrapSigned_eight]
  omega

theorem wrapSigned_eight_idem (t : ℤ) :
    wrapSigned 8 (wrapSigned 8 t) = wrapSigned 8 t := by
  rw [wrapSigned_eight, wrapSigned_eight]
  omega

theorem wrapSigned_eight_eq_self {t : ℤ} (h1 : -128 ≤ t) (h2 : t ≤ 127) :
    wrapSigned 8 t = t := by
  rw [wrapSigned_eight]
  omega

theorem listMin_le_of_mem : ∀ {l : List ℚ} {x : ℚ}, x ∈ l → listMin l ≤ x := by
  intro l
  induction l with
  | nil => intro x hx; cases hx
  | cons a t ih =>
    intro x hx
    cases t with
    | nil =>
      rcases List.mem_cons.mp hx with h | h
      · subst h; exact le_of_eq rfl
      · cases h
    | cons b t2 =>
      rcases List.mem_cons.mp hx with h | h
      · subst h; exact min_le_left _ _
      · exact le_trans (min_le_right _ _) (ih h)

theorem le_listMax_of_mem : ∀ {l : List ℚ} {x : ℚ}, x ∈ l → x ≤ listMax l := by
  intro l
  induction l with
  | nil => intro x hx; cases hx
  | cons a t ih =>
    intro x hx
    cases t with
    | nil =>
      rcases List.mem_cons.mp hx with h | h
      · subst h; exact le_of_eq rfl
      · cases h
    | cons b t2 =>
      rcases List.mem_cons.mp hx with h | h
      · subst h; exact le_max_left _ _
      · exact le_trans (ih h) (le_max_right _ _)

theorem zipWith_congr_mem {α β γ : Type _} (f g : α → β → γ) :
    ∀ (l1 : List α) (l2 : List β), (∀ a ∈ l1, ∀ b ∈ l2, f a b = g a b) →
      List.zipWith f l1 l2 = List.zipWith g l1 l2 := by
  intro l1
  induction l1 with
  | nil => intro l2 h; simp
  | cons a t ih =>
    intro l2 h
    cases l2 with
    | nil => simp
    | cons b t2 =>
      simp only [List.zipWith_cons_cons]
      rw [h a (by simp) b (by simp),
        ih t2 (fun x hx y hy => h x (by simp [hx]) y (by simp [hy]))]

theorem exists_of_mem_zipWith {α β γ : Type _} {f : α → β → γ} :
    ∀ {l1 : List α} {l2 : List β} {c : γ}, c ∈ List.zipWith f l1 l2 →
      ∃ a ∈ l1, ∃ b ∈ l2, c = f a b := by
  intro l1
  induction l1 with
  | nil => intro l2 c hc; simp at hc
  | cons a t ih =>
    intro l2 c hc
    cases l2 with
    | nil => simp at hc
    | cons b t2 =>
      rcases List.mem_cons.mp hc with h | h
      · exact ⟨a, by simp, b, by simp, h⟩
      · rcases ih h with ⟨a2, ha2, b2, hb2, hc2⟩
        exact ⟨a2, by simp [ha2], b2, by simp [hb2], hc2⟩

theorem zipWith2D_map_map (f : ℚ → ℚ → ℚ) (g h : ℚ → ℚ) (p q : Pat) :
    zipWith2D f (p.map (List.map g)) (q.map (List.map h))
      = zipWith2D (fun a b => f (g a) (h b)) p q := by
  unfold zipWith2D
  rw [List.zipWith_map]
  apply zipWith_congr_mem
  intro r1 _ r2 _
  rw [List.zipWith_map]

theorem zipWith2D_congr_mem (f g : ℚ → ℚ → ℚ) (p q : Pat)
    (h : ∀ a ∈ p.flatten, ∀ b ∈ q.flatten, f a b = g a b) :
    zipWith2D f p q = zipWith2D g p q := by
  unfold zipWith2D
  apply zipWith_congr_mem
  intro r1 h1 r2 h2
  apply zipWith_congr_mem
  intro a ha b hb
  exact h a (List.mem_flatten.mpr ⟨r1, h1, ha⟩) b (List.mem_flatten.mpr ⟨r2, h2, hb⟩)

theorem exists_of_mem_zipWith2D {f : ℚ → ℚ → ℚ} {p q : Pat} {y : ℚ}
    (hy : y ∈ (zipWith2D f p q).flatten) :
    ∃ a ∈ p.flatten, ∃ b ∈ q.flatten, y = f a b := by
  rcases List.mem_flatten.mp hy with ⟨row, hrow, hyrow⟩
  rcases exists_of_mem_zipWith hrow with ⟨r1, hr1, r2, hr2, heq⟩
  subst heq
  rcases exists_of_mem_zipWith hyrow with ⟨a, ha, b, hb, hy2⟩
  exact ⟨a, List.mem_flatten.mpr ⟨r1, hr1, ha⟩, b, List.mem_flatten.mpr ⟨r2, hr2, hb⟩, hy2⟩

theorem getD_eq_some_of_lt {α : Type _} (p : List α) (d : α) {k : ℕ}
    (h : k < p.length) : p[k]? = some (p.getD k d) := by
  rw [List.getD_eq_getElem?_getD, List.getElem?_eq_getElem h]
  simp

theorem getPix_setPix_self {α : Type _} (p : List (List α)) (i j : ℕ) (v : α)
    (h1 : i < p.length) (h2 : j < (p.getD i []).length) :
    getPix (setPix p i j v) i j = some v := by
  unfold getPix setPix
  rw [List.getElem?_set_self h1]
  simp only [Option.some_bind]
  exact List.getElem?_set_self h2

theorem getPix_setPix_ne {α : Type _} (p : List (List α)) (i j : ℕ) (v : α)
    (k l : ℕ) (h : ¬ (k = i ∧ l = j)) :
    getPix (setPix p i j v) k l = getPix p k l := by
  unfold getPix setPix
  by_cases hk : k = i
  · subst hk
    have hl : ¬ l = j := fun hl => h ⟨rfl, hl⟩
    rw [List.getElem?_set]
    by_cases hkp : k < p.length
    · simp only [if_pos rfl, if_pos hkp]
      conv_rhs => rw [getD_eq_some_of_lt p [] hkp]
      simp only [Option.some_bind]
      exact List.getElem?_set_ne (fun hh => hl hh.symm)
    · simp only [if_pos rfl, if_neg hkp]
      rw [List.getElem?_eq_none (Nat.le_of_not_lt hkp)]
      simp
  · rw [List.getElem?_set_ne (fun hh => hk hh.symm)]

theorem length_setPix {α : Type _} (p : List (List α)) (i j : ℕ) (v : α) :
    (setPix p i j v).length = p.length := by
  unfold setPix
  exact List.length_set p i _

theorem rowLen_setPix {α : Type _} (p : List (List α)) (i j : ℕ) (v : α) (k : ℕ) :
    ((setPix p i j v).getD k []).length = (p.getD k []).length := by
  unfold setPix
  by_cases hk : k = i
  · subst hk
    by_cases hkp : k < p.length
    · rw [List.getD_eq_getElem?_getD, List.getElem?_set_self hkp]
      simp [List.length_set]
    · rw [List.set_eq_of_length_le (Nat.le_of_not_lt hkp)]
  · rw [List.getD_eq_getElem?_getD, List.getElem?_set_ne (fun hh => hk hh.symm),
      List.getD_eq_getElem?_getD]

/-! ### Claim theorems -/

/-- C5: correct_background with static=False and dynamic=False performs no
operation and returns the pattern unchanged, for every pattern and
regardless of the bg, sigma, imin and scale arguments. -/
theorem correct_background_passthrough (gaussian_blur : Pat → ℚ → Pat)
    (pattern bg : Pat) (sigma : ℚ) (imin scale : Option ℚ) :
    correct_background gaussian_blur pattern false false bg sigma imin scale
      = .ok pattern := rfl

/-- C2: rescale_pattern_intensity fails with the InvalidArgument
(ValueError) dtype error exactly when dtype_out is not an unsigned
integer type; the equivalence holds for every pattern and every
imin/scale, so the validation precedes any computation on the pattern,
and an unsigned dtype_out never triggers this error. -/
theorem rescale_dtype_validation (pattern : Pat) (imin scale : Option ℚ)
    (dtype_out : Dtype) :
    rescale_pattern_intensity pattern imin scale dtype_out
        = .error .dtypeNotUnsigned
      ↔ dtype_out.isUnsignedInteger = false := by
  unfold rescale_pattern_intensity
  by_cases h : dtype_out.isUnsignedInteger = false
  · simp [h]
  · rw [if_neg h]
    constructor
    · intro hc
      exfalso
      split at hc
      · split at hc <;> simp_all
      · simp_all
      · simp_all
    · intro hc
      exact absurd hc h

theorem writePix_ne_notImplemented (p : PatN) (i j : ℕ) (v : Option ℚ) :
    writePix p i j v ≠ .error .notImplemented := by
  unfold writePix
  split <;> simp

theorem averageStep_ne_notImplemented (pattern : PatN) (d : ℕ) (acc : PatN)
    (ij : ℕ × ℕ) : averageStep pattern d acc ij ≠ .error .notImplemented := by
  unfold averageStep
  split
  · rename_i e he
    unfold npDelete at he
    split at he
    · exact Except.noConfusion he
    · injection he with h1
      subst h1
      simp
  · split
    · rename_i e he
      unfold intOfFloat at he
      split at he
      · injection he with h1
        subst h1
        simp
      · exact Except.noConfusion he
    · exact writePix_ne_notImplemented _ _ _ _

theorem foldPixels_ne_notImplemented
    (f : PatN → ℕ × ℕ → Except DeadErr PatN)
    (hf : ∀ acc ij, f acc ij ≠ .error .notImplemented) :
    ∀ (dp : List (ℕ × ℕ)) (acc : PatN),
      foldPixels f acc dp ≠ .error .notImplemented := by
  intro dp
  induction dp with
  | nil => intro acc h; exact Except.noConfusion h
  | cons ij rest ih =>
    intro acc
    simp only [foldPixels]
    split
    · rename_i e he
      intro hc
      injection hc with h1
      subst h1
      exact hf acc ij he
    · rename_i acc2 hacc2
      exact ih acc2

/-- C8: remove_dead fails with the UnsupportedOption (NotImplementedError)
"method not implemented" error if and only if deadvalue is neither
"average" nor "nan", for every pattern, dead-pixel list (including the
empty one) and d; the two supported modes never produce this error. -/
theorem remove_dead_unsupported_iff (pattern : PatN)
    (deadpixels : List (ℕ × ℕ)) (deadvalue : String) (d : ℕ) :
    remove_dead pattern deadpixels deadvalue d = .error .notImplemented
      ↔ (deadvalue ≠ "average" ∧ deadvalue ≠ "nan") := by
  unfold remove_dead
  by_cases h1 : deadvalue = "average"
  · rw [if_pos h1]
    constructor
    · intro hc
      exact absurd hc (foldPixels_ne_notImplemented _
        (fun acc ij => averageStep_ne_notImplemented pattern d acc ij) _ _)
    · rintro ⟨ha, _⟩
      exact absurd h1 ha
  · rw [if_neg h1]
    by_cases h2 : deadvalue = "nan"
    · rw [if_pos h2]
      constructor
      · intro hc
        exact absurd hc (foldPixels_ne_notImplemented _
          (fun acc ij => writePix_ne_notImplemented acc ij.1 ij.2 none) _ _)
      · rintro ⟨_, hn⟩
        exact absurd h2 hn
    · simp [h1, h2]

/-- C6: on the 5x5 pattern holding 10 everywhere except 200 at (2, 2),
remove_dead with deadpixels=[(2,2)], deadvalue="average", d=1 returns a
fresh array (heap address 1) whose (2, 2) entry is 10 — the truncated
mean of the eight neighbours read from the original pattern with the
flattened centre index 4 excluded — and whose other pixels are unchanged,
while the input array at heap address 0 is untouched. -/
theorem remove_dead_average_interior :
    removeDeadAlloc [deadPat] 0 [(2, 2)] "average" 1
      = .ok ([deadPat, allTenPat], 1) := by with_unfolding_all decide

/-- C9: a successful remove_dead call allocates a fresh output array that
never aliases the input: the output address differs from the input
address, the input array's contents are identical before and after the
call, and an in-place write to either array afterwards leaves the other
array's contents unchanged. -/
theorem remove_dead_copy_isolation (heap : Heap) (pref : ℕ)
    (deadpixels : List (ℕ × ℕ)) (deadvalue : String) (d : ℕ) (out : Heap × ℕ)
    (href : pref < heap.length)
    (hok : removeDeadAlloc heap pref deadpixels deadvalue d = .ok out) :
    out.2 ≠ pref ∧
    out.1.getD pref [] = heap.getD pref [] ∧
    ∀ i j v,
      (heapWrite out.1 out.2 i j v).getD pref [] = out.1.getD pref [] ∧
      (heapWrite out.1 pref i j v).getD out.2 [] = out.1.getD out.2 [] := by
  unfold removeDeadAlloc at hok
  split at hok
  · exact absurd hok (by simp)
  · rename_i fresh hfresh
    injection hok with h
    subst h
    have hne : heap.length ≠ pref := (Nat.ne_of_lt href).symm
    refine ⟨hne, ?_, ?_⟩
    · exact List.getD_append heap [fresh] [] pref href
    · intro i j v
      constructor
      · unfold heapWrite
        rw [List.getD_eq_getElem?_getD, List.getElem?_set_ne hne,
          ← List.getD_eq_getElem?_getD]
      · unfold heapWrite
        rw [List.getD_eq_getElem?_getD, List.getElem?_set_ne (fun hh => hne hh.symm),
          ← List.getD_eq_getElem?_getD]

/-- Witness for C9 at a concrete input: a one-pixel pattern at heap
address 0, an empty dead-pixel list, mode "nan". -/
theorem remove_dead_copy_isolation_witness :
    ((([[[some (1:ℚ)]], [[some (1:ℚ)]]], 1) : Heap × ℕ).2 ≠ 0) ∧
    (([[[some (1:ℚ)]], [[some (1:ℚ)]]], 1) : Heap × ℕ).1.getD 0 []
      = ([[[some (1:ℚ)]]] : Heap).getD 0 [] ∧
    ∀ i j v,
      (heapWrite (([[[some (1:ℚ)]], [[some (1:ℚ)]]], 1) : Heap × ℕ).1 1 i j v).getD 0 []
        = (([[[some (1:ℚ)]], [[some (1:ℚ)]]], 1) : Heap × ℕ).1.getD 0 [] ∧
      (heapWrite (([[[some (1:ℚ)]], [[some (1:ℚ)]]], 1) : Heap × ℕ).1 0 i j v).getD 1 []
        = (([[[some (1:ℚ)]], [[some (1:ℚ)]]], 1) : Heap × ℕ).1.getD 1 [] :=
  remove_dead_copy_isolation [[[some (1:ℚ)]]] 0 [] "nan" 1
    ([[[some (1:ℚ)]], [[some (1:ℚ)]]], 1) (by decide)
    (by with_unfolding_all decide)

theorem iinfoMax_lt_pow (dty : Dtype) (hu : dty.isUnsignedInteger = true) :
    (dty.iinfoMax : ℤ) < 2 ^ dty.bitWidth := by
  cases dty <;>
    simp_all [Dtype.isUnsignedInteger, Dtype.iinfoMax, Dtype.bitWidth]

theorem castToUnsigned_eq_ratTrunc_of_range (dty : Dtype)
    (hu : dty.isUnsignedInteger = true) {q : ℚ} (h0 : 0 ≤ q)
    (h1 : q ≤ (dty.iinfoMax : ℚ)) : castToUnsigned dty q = ratTrunc q := by
  unfold castToUnsigned
  have ht : ratTrunc q = ⌊q⌋ := if_pos h0
  have h2 : 0 ≤ ⌊q⌋ := Int.floor_nonneg.mpr h0
  have h3 : ⌊q⌋ ≤ (dty.iinfoMax : ℤ) := by
    have h4 := Int.floor_le_floor h1
    rwa [Int.floor_natCast] at h4
  rw [ht]
  exact Int.emod_eq_of_lt h2 (lt_of_le_of_lt h3 (iinfoMax_lt_pow dty hu))

/-- C10: in automatic mode (imin and scale both omitted) the scale
division is unguarded: for an unsigned dtype_out, a non-constant pattern
(min < max) makes the divisor max - min strictly positive, the
zero-divisor branch unreachable and the call succeed, while a constant
pattern reaches the zero divisor. -/
theorem rescale_auto_totality (pattern : Pat) (dtype_out : Dtype)
    (hu : dtype_out.isUnsignedInteger = true) :
    (patMin pattern < patMax pattern →
      0 < patMax pattern - patMin pattern ∧
      ∃ res, rescale_pattern_intensity pattern none none dtype_out
        = .ok res) ∧
    (patMax pattern = patMin pattern →
      rescale_pattern_intensity pattern none none dtype_out
        = .error .zeroDivisor) := by
  have hguard : ¬ (dtype_out.isUnsignedInteger = false) := by simp [hu]
  constructor
  · intro hlt
    have hpos : 0 < patMax pattern - patMin pattern := sub_pos.mpr hlt
    refine ⟨hpos, rescaleCore pattern (patMin pattern)
      ((dtype_out.iinfoMax : ℚ) / (patMax pattern - patMin pattern))
      dtype_out, ?_⟩
    unfold rescale_pattern_intensity
    rw [if_neg hguard]
    show (if patMax pattern - patMin pattern = 0 then
        Except.error RescaleErr.zeroDivisor
      else Except.ok (rescaleCore pattern (patMin pattern)
        ((dtype_out.iinfoMax : ℚ) / (patMax pattern - patMin pattern))
        dtype_out)) = _
    rw [if_neg (ne_of_gt hpos)]
  · intro heq
    have h0 : patMax pattern - patMin pattern = 0 := by rw [heq, sub_self]
    unfold rescale_pattern_intensity
    rw [if_neg hguard]
    show (if patMax pattern - patMin pattern = 0 then
        Except.error RescaleErr.zeroDivisor
      else Except.ok (rescaleCore pattern (patMin pattern)
        ((dtype_out.iinfoMax : ℚ) / (patMax pattern - patMin pattern))
        dtype_out)) = _
    rw [if_pos h0]

/-- Witness for C10: the non-constant pattern [[0, 1]] succeeds with a
positive divisor; the constant pattern [[5, 5]] reaches the zero
divisor. -/
theorem rescale_auto_totality_witness :
    (0 < patMax [[(0:ℚ), 1]] - patMin [[(0:ℚ), 1]] ∧
      ∃ res, rescale_pattern_intensity [[(0:ℚ), 1]] none none Dtype.uint8
        = .ok res) ∧
    rescale_pattern_intensity [[(5:ℚ), 5]] none none Dtype.uint8
      = .error .zeroDivisor :=
  ⟨(rescale_auto_totality [[(0:ℚ), 1]] Dtype.uint8 rfl).1
      (by with_unfolding_all decide),
   (rescale_auto_totality [[(5:ℚ), 5]] Dtype.uint8 rfl).2
      (by with_unfolding_all decide)⟩

/-- C1 counterexample: on the constant — still 2-D, unsigned-integer
valued — pattern [[10]], automatic-mode rescale reaches the zero divisor
max(pattern) - imin = 0 and produces no output array at all, refuting the
claim's unconditional "returns a new array ... equal to
(pattern - imin) * scale". -/
theorem rescale_auto_constant_cex :
    rescale_pattern_intensity [[(10:ℚ)]] none none Dtype.uint8
      = .error .zeroDivisor := by with_unfolding_all decide

/-- C1 (amended): for every 2-D pattern with at least two distinct values
(max > min — the precondition forced by rescale_auto_constant_cex) and
unsigned dtype_out, automatic-mode rescale sets omax to the maximum
representable value of dtype_out, imin to the pattern minimum, scale to
the division omax / (max - imin), and returns a new array of the same
shape equal to (pattern - imin) * scale cast elementwise to dtype_out by
truncation toward zero (not rounding). -/
theorem rescale_auto_mode (pattern : Pat) (dtype_out : Dtype)
    (hu : dtype_out.isUnsignedInteger = true)
    (hnc : patMin pattern < patMax pattern) :
    rescale_pattern_intensity pattern none none dtype_out
        = .ok (rescaleAutoSpec pattern dtype_out) ∧
    patShape (rescaleAutoSpec pattern dtype_out) = patShape pattern := by
  have hguard : ¬ (dtype_out.isUnsignedInteger = false) := by simp [hu]
  have hpos : 0 < patMax pattern - patMin pattern := sub_pos.mpr hnc
  constructor
  · unfold rescale_pattern_intensity
    rw [if_neg hguard]
    show (if patMax pattern - patMin pattern = 0 then
        Except.error RescaleErr.zeroDivisor
      else Except.ok (rescaleCore pattern (patMin pattern)
        ((dtype_out.iinfoMax : ℚ) / (patMax pattern - patMin pattern))
        dtype_out)) = _
    rw [if_neg (ne_of_gt hpos)]
    refine congrArg Except.ok ?_
    unfold rescaleCore rescaleAutoSpec
    apply List.map_congr_left
    intro row hrow
    apply List.map_congr_left
    intro x hx
    have hmem : x ∈ pattern.flatten := List.mem_flatten.mpr ⟨row, hrow, hx⟩
    have hsc : (0:ℚ) ≤ (dtype_out.iinfoMax : ℚ) / (patMax pattern - patMin pattern) :=
      div_nonneg (Nat.cast_nonneg _) (le_of_lt hpos)
    have h0 : (0:ℚ) ≤ (x - patMin pattern) *
        ((dtype_out.iinfoMax : ℚ) / (patMax pattern - patMin pattern)) :=
      mul_nonneg (sub_nonneg.mpr (listMin_le_of_mem hmem)) hsc
    have h1 : (x - patMin pattern) *
        ((dtype_out.iinfoMax : ℚ) / (patMax pattern - patMin pattern))
        ≤ (dtype_out.iinfoMax : ℚ) := by
      have hle : x - patMin pattern ≤ patMax pattern - patMin pattern :=
        sub_le_sub_right (le_listMax_of_mem hmem) _
      calc (x - patMin pattern) *
            ((dtype_out.iinfoMax : ℚ) / (patMax pattern - patMin pattern))
          ≤ (patMax pattern - patMin pattern) *
            ((dtype_out.iinfoMax : ℚ) / (patMax pattern - patMin pattern)) :=
            mul_le_mul_of_nonneg_right hle hsc
        _ = (dtype_out.iinfoMax : ℚ) := by
            rw [mul_comm]
            exact div_mul_cancel₀ _ (ne_of_gt hpos)
    exact congrArg (fun t : ℤ => (t : ℚ))
      (castToUnsigned_eq_ratTrunc_of_range dtype_out hu h0 h1)
  · unfold rescaleAutoSpec patShape
    rw [List.map_map]
    apply List.map_congr_left
    intro r _
    simp

/-- Witness for the amended C1 at the pattern [[0, 1]] with dtype uint8. -/
theorem rescale_auto_mode_witness :
    rescale_pattern_intensity [[(0:ℚ), 1]] none none Dtype.uint8
        = .ok (rescaleAutoSpec [[(0:ℚ), 1]] Dtype.uint8) ∧
    patShape (rescaleAutoSpec [[(0:ℚ), 1]] Dtype.uint8)
      = patShape [[(0:ℚ), 1]] :=
  rescale_auto_mode [[(0:ℚ), 1]] Dtype.uint8 rfl (by with_unfolding_all decide)

theorem ratTrunc_zero : ratTrunc 0 = 0 := by
  unfold ratTrunc
  simp

theorem astypeSigned_zerosLike (pattern : Pat) :
    astypeSigned 8 (zerosLike pattern)
      = pattern.map (List.map fun _ => (0 : ℚ)) := by
  unfold astypeSigned zerosLike
  rw [List.map_map]
  apply List.map_congr_left
  intro r _
  show List.map _ (List.map _ r) = _
  rw [List.map_map]
  apply List.map_congr_left
  intro a _
  show ((wrapSigned 8 (ratTrunc 0) : ℤ) : ℚ) = 0
  rw [ratTrunc_zero]
  norm_num [wrapSigned]

/-- C3: subtracting an all-zero background in the static-only path is the
identity: correct_background with static=True, dynamic=False,
bg=zeros_like(pattern), imin=0 and scale=1.0 returns exactly
rescale_pattern_intensity(pattern, imin=0, scale=1.0), for every pattern,
blur collaborator and sigma. -/
theorem correct_static_zero_bg (gaussian_blur : Pat → ℚ → Pat)
    (pattern : Pat) (sigma : ℚ) :
    correct_background gaussian_blur pattern true false (zerosLike pattern)
        sigma (some 0) (some 1)
      = rescale_pattern_intensity pattern (some 0) (some 1) Dtype.uint8 := by
  have hsub : staticCastSub pattern (zerosLike pattern)
      = pattern.map (List.map fun a => ((wrapSigned 8 (ratTrunc a) : ℤ) : ℚ)) := by
    unfold staticCastSub
    rw [astypeSigned_zerosLike]
    unfold subWrapSigned astypeSigned
    rw [zipWith2D_map_map]
    unfold zipWith2D
    rw [List.zipWith_same]
    apply List.map_congr_left
    intro r _
    rw [List.zipWith_same]
    apply List.map_congr_left
    intro a _
    show ((wrapSigned 8 (ratTrunc ((wrapSigned 8 (ratTrunc a) : ℤ) : ℚ)
      - ratTrunc (0 : ℚ)) : ℤ) : ℚ) = _
    rw [ratTrunc_intCast, ratTrunc_zero, sub_zero, wrapSigned_eight_idem]
  show Except.ok (rescaleCore (staticCastSub pattern (zerosLike pattern))
      0 1 Dtype.uint8)
    = Except.ok (rescaleCore pattern 0 1 Dtype.uint8)
  rw [hsub]
  refine congrArg Except.ok ?_
  unfold rescaleCore
  rw [List.map_map]
  apply List.map_congr_left
  intro r _
  show List.map _ (List.map _ r) = _
  rw [List.map_map]
  apply List.map_congr_left
  intro a _
  refine congrArg (fun t : ℤ => (t : ℚ)) ?_
  show castToUnsigned Dtype.uint8
      ((((wrapSigned 8 (ratTrunc a) : ℤ) : ℚ) - 0) * 1)
    = castToUnsigned Dtype.uint8 ((a - 0) * 1)
  rw [sub_zero, mul_one, sub_zero, mul_one]
  unfold castToUnsigned
  rw [ratTrunc_intCast]
  rw [show (2 : ℤ) ^ Dtype.uint8.bitWidth = 256 from by norm_num [Dtype.bitWidth]]
  exact wrapSigned_eight_mod _

/-- C4 counterexample: the static path's intermediate type np.int8 cannot
hold the 8-bit unsigned range: for the 8-bit pattern [[200]] and bg
[[0]], the int8 cast wraps 200 to -56, so cast-and-subtract yields -56
while exact integer arithmetic yields 200 — the value has wrapped. -/
theorem static_cast_overflow_cex :
    staticCastSub [[(200:ℚ)]] [[(0:ℚ)]] = [[(-56 : ℚ)]] ∧
    exactSub [[(200:ℚ)]] [[(0:ℚ)]] = [[(200 : ℚ)]] ∧
    ((-56 : ℚ) ≠ (200 : ℚ)) := by
  with_unfolding_all decide

/-- C4 (amended): the int8 intermediate of the static path is only exact
for inputs that themselves fit int8: when every pattern and bg value is
an integer in [0, 127], the cast-and-subtract equals exact integer
subtraction and every difference lies in [-127, 127] with no wrap; for
8-bit unsigned values above 127 the cast itself already wraps, as
static_cast_overflow_cex shows. -/
theorem static_cast_sub_safe (pattern bg : Pat)
    (hp : ∀ x ∈ pattern.flatten, ((ratTrunc x : ℤ) : ℚ) = x ∧ 0 ≤ x ∧ x ≤ 127)
    (hb : ∀ x ∈ bg.flatten, ((ratTrunc x : ℤ) : ℚ) = x ∧ 0 ≤ x ∧ x ≤ 127) :
    staticCastSub pattern bg = exactSub pattern bg ∧
    ∀ y ∈ (staticCastSub pattern bg).flatten, -127 ≤ y ∧ y ≤ 127 := by
  have heq : staticCastSub pattern bg = exactSub pattern bg := by
    unfold staticCastSub subWrapSigned astypeSigned exactSub
    rw [zipWith2D_map_map]
    apply zipWith2D_congr_mem
    intro a ha b hbm
    rcases hp a ha with ⟨hat, ha0, ha1⟩
    rcases hb b hbm with ⟨hbt, hb0, hb1⟩
    have hta0 : (0:ℤ) ≤ ratTrunc a := by
      rw [← hat] at ha0; exact_mod_cast ha0
    have hta1 : ratTrunc a ≤ 127 := by
      rw [← hat] at ha1; exact_mod_cast ha1
    have htb0 : (0:ℤ) ≤ ratTrunc b := by
      rw [← hbt] at hb0; exact_mod_cast hb0
    have htb1 : ratTrunc b ≤ 127 := by
      rw [← hbt] at hb1; exact_mod_cast hb1
    have e1 : wrapSigned 8 (ratTrunc a) = ratTrunc a :=
      wrapSigned_eight_eq_self (by omega) (by omega)
    have e2 : wrapSigned 8 (ratTrunc b) = ratTrunc b :=
      wrapSigned_eight_eq_self (by omega) (by omega)
    rw [ratTrunc_intCast, ratTrunc_intCast, e1, e2,
      wrapSigned_eight_eq_self (by omega) (by omega)]
    push_cast
    rw [hat, hbt]
  refine ⟨heq, ?_⟩
  intro y hy
  rw [heq] at hy
  unfold exactSub at hy
  rcases exists_of_mem_zipWith2D hy with ⟨a, ha, b, hbm, hyeq⟩
  rcases hp a ha with ⟨_, ha0, ha1⟩
  rcases hb b hbm with ⟨_, hb0, hb1⟩
  subst hyeq
  constructor <;> linarith

/-- Witness for the amended C4 at pattern [[100]] and bg [[30]]. -/
theorem static_cast_sub_safe_witness :
    staticCastSub [[(100:ℚ)]] [[(30:ℚ)]] = exactSub [[(100:ℚ)]] [[(30:ℚ)]] ∧
    ∀ y ∈ (staticCastSub [[(100:ℚ)]] [[(30:ℚ)]]).flatten,
      -127 ≤ y ∧ y ≤ 127 :=
  static_cast_sub_safe [[(100:ℚ)]] [[(30:ℚ)]]
    (by with_unfolding_all decide) (by with_unfolding_all decide)

theorem foldPixels_nan (dp : List (ℕ × ℕ)) :
    ∀ (acc : PatN),
      (∀ ij ∈ dp, ij.1 < acc.length ∧ ij.2 < (acc.getD ij.1 []).length) →
      ∃ res,
        foldPixels (fun a ij => writePix a ij.1 ij.2 none) acc dp = .ok res ∧
        res.length = acc.length ∧
        (∀ k, (res.getD k []).length = (acc.getD k []).length) ∧
        (∀ k l, getPix res k l
          = if (k, l) ∈ dp then some none else getPix acc k l) := by
  induction dp with
  | nil =>
    intro acc _
    exact ⟨acc, rfl, rfl, fun k => rfl, fun k l => by simp⟩
  | cons ij rest ih =>
    intro acc hb
    rcases hb ij (by simp) with ⟨hi, hj⟩
    have hw : writePix acc ij.1 ij.2 none = .ok (setPix acc ij.1 ij.2 none) := by
      unfold writePix
      rw [if_pos ⟨hi, hj⟩]
    have hrest : ∀ pq ∈ rest, pq.1 < (setPix acc ij.1 ij.2 none).length ∧
        pq.2 < ((setPix acc ij.1 ij.2 none).getD pq.1 []).length := by
      intro pq hpq
      rcases hb pq (by simp [hpq]) with ⟨h1, h2⟩
      refine ⟨?_, ?_⟩
      · rw [length_setPix]; exact h1
      · rw [rowLen_setPix]; exact h2
    rcases ih (setPix acc ij.1 ij.2 none) hrest with ⟨res, hres, hlen, hrow, hget⟩
    refine ⟨res, ?_, ?_, ?_, ?_⟩
    · simp only [foldPixels]
      rw [hw]
      exact hres
    · rw [hlen, length_setPix]
    · intro k
      rw [hrow, rowLen_setPix]
    · intro k l
      rw [hget]
      by_cases hmem : (k, l) ∈ rest
      · rw [if_pos hmem, if_pos (by simp [hmem])]
      · rw [if_neg hmem]
        by_cases hij : (k, l) = ij
        · have hk : k = ij.1 := congrArg Prod.fst hij
          have hl : l = ij.2 := congrArg Prod.snd hij
          subst hk
          subst hl
          rw [getPix_setPix_self acc ij.1 ij.2 none hi hj,
            if_pos (by simp [Prod.ext_iff])]
        · have hne : ¬ (k = ij.1 ∧ l = ij.2) := by
            intro hc
            exact hij (Prod.ext hc.1 hc.2)
          rw [getPix_setPix_ne acc ij.1 ij.2 none k l hne,
            if_neg (by simp [hij, hmem])]

/-- C7: remove_dead with deadvalue="nan" succeeds on every pattern and
every list of in-bounds coordinates, returning a same-shape copy in which
every listed coordinate holds the nan sentinel and every other pixel is
unchanged. -/
theorem remove_dead_nan (pattern : PatN) (deadpixels : List (ℕ × ℕ)) (d : ℕ)
    (hb : ∀ ij ∈ deadpixels,
      ij.1 < pattern.length ∧ ij.2 < (pattern.getD ij.1 []).length) :
    ∃ res, remove_dead pattern deadpixels "nan" d = .ok res ∧
      res.length = pattern.length ∧
      (∀ k, (res.getD k []).length = (pattern.getD k []).length) ∧
      (∀ k l, getPix res k l
        = if (k, l) ∈ deadpixels then some none else getPix pattern k l) := by
  have h := foldPixels_nan deadpixels pattern hb
  unfold remove_dead
  rw [if_neg (by decide), if_pos rfl]
  exact h

/-- Witness for C7 at a concrete 2x2 pattern with dead pixel (0, 1). -/
theorem remove_dead_nan_witness :
    ∃ res, remove_dead [[some (1:ℚ), some 2], [some 3, some 4]]
        [(0, 1)] "nan" 1 = .ok res ∧
      res.length = ([[some (1:ℚ), some 2], [some 3, some 4]] : PatN).length ∧
      (∀ k, (res.getD k []).length
        = (([[some (1:ℚ), some 2], [some 3, some 4]] : PatN).getD k []).length) ∧
      (∀ k l, getPix res k l
        = if (k, l) ∈ [(0, 1)] then some none
          else getPix ([[some (1:ℚ), some 2], [some 3, some 4]] : PatN) k l) :=
  remove_dead_nan [[some (1:ℚ), some 2], [some 3, some 4]] [(0, 1)] 1
    (by decide)
